/-
Verification of the task-manager core in `todo.py`: the date parser
`parse_due_date`, the `Task` entity, and the `Tasks` store with its
list/report/done/delete/query operations and the shared sort rule.

Modelling conventions:
* Strings are `List Char`; Python's `str.strip`/`str.lower` are modelled on
  ASCII (`pystrip`, `pylower`), and `\d` / `int()` digits as ASCII digits.
* `datetime` values are `DateTime`: a proleptic-Gregorian ordinal (`toordinal`
  convention, day 1 = 0001-01-01) plus microseconds since midnight; comparison
  is lexicographic, exactly as CPython compares `datetime` objects.
* `datetime.strptime(s, "%m/%d/%Y")` is modelled by `strptime_mdY`: one or
  two digits of month, a slash, one or two digits of day, a slash, exactly
  four digits of year (CPython's `%Y` pattern is `\d\d\d\d`), anchored at the
  start with full consumption required, followed by calendar validation
  (CPython constrains month/day ranges already in the regex; both models
  reject exactly the same strings, since out-of-range values fail
  validation); any failure mode (no match, trailing data, invalid date) is
  the caught `ValueError`, i.e. `none`.
* `pickle.dump`/`pickle.load` round-trip Python objects exactly, so the
  persisted blob is modelled as the task list itself (`Store.disk`).
* `list.sort(key=...)` is a stable sort by the key; we model it with
  `List.insertionSort` under the `≤` induced by the key, which is the unique
  stable sort for that preorder.
* Printing is out of scope; each operation returns the ordered selection it
  renders, and mutators return the printed message alongside the new store.
-/
import Mathlib

namespace Todo

/-! ### Character helpers (ASCII models of Python's str methods) -/

/-- ASCII decimal digit, the model of `\d` in the strptime regex and of the
digits accepted by `int()`. -/
def isDigitC (c : Char) : Bool := 48 ≤ c.toNat && c.toNat ≤ 57

/-- Whitespace stripped by Python's `str.strip()` (ASCII part). -/
def isSpaceC (c : Char) : Bool :=
  c.toNat == 32 || c.toNat == 9 || c.toNat == 10 || c.toNat == 13 ||
  c.toNat == 11 || c.toNat == 12

/-- ASCII model of Python's `str.lower()` applied to one character. -/
def lowerC (c : Char) : Char :=
  if 65 ≤ c.toNat && c.toNat ≤ 90 then Char.ofNat (c.toNat + 32) else c

/-- Model of Python's `s.strip()`. -/
def pystrip (l : List Char) : List Char :=
  ((l.dropWhile isSpaceC).reverse.dropWhile isSpaceC).reverse

/-- Model of Python's `s.lower()`. -/
def pylower (l : List Char) : List Char := l.map lowerC

/-! ### Calendar arithmetic (the proleptic Gregorian calendar of `datetime`) -/

/-- Gregorian leap year, as in CPython's `datetime` module. -/
def isLeap (y : Nat) : Bool := y % 4 == 0 && (y % 100 != 0 || y % 400 == 0)

/-- Days in month `m` of year `y` (`m` between 1 and 12). -/
def daysInMonth (y m : Nat) : Nat :=
  if m == 2 then (if isLeap y then 29 else 28)
  else if m == 4 || m == 6 || m == 9 || m == 11 then 30
  else 31

/-- Days in all years strictly before year `y`. -/
def daysBeforeYear (y : Nat) : Nat :=
  (y - 1) * 365 + (y - 1) / 4 - (y - 1) / 100 + (y - 1) / 400

/-- Days in year `y` strictly before month `m`. -/
def daysBeforeMonth (y m : Nat) : Nat :=
  ((List.range m).filter (fun k => 1 ≤ k)).foldl (fun acc k => acc + daysInMonth y k) 0

/-- CPython's `date(y, m, d).toordinal()`: day 1 is 0001-01-01. -/
def toOrdinal (y m d : Nat) : Nat := daysBeforeYear y + daysBeforeMonth y m + d

/-- The triple is a valid `datetime` date: this is exactly the check whose
failure raises the `ValueError` that `parse_due_date` swallows. -/
def validDate (y m d : Nat) : Bool :=
  1 ≤ y && y ≤ 9999 && 1 ≤ m && m ≤ 12 && 1 ≤ d && d ≤ daysInMonth y m

/-- Model of a CPython `datetime`: ordinal day plus microseconds since
midnight.  Comparison is lexicographic, as for `datetime` objects. -/
structure DateTime where
  ord : Nat
  usec : Nat
deriving DecidableEq, Repr

/-- `datetime.max = datetime(9999, 12, 31, 23, 59, 59, 999999)`. -/
def dtMax : DateTime := ⟨toOrdinal 9999 12 31, 86399999999⟩

/-- `datetime.__lt__`: lexicographic on (date, time-of-day). -/
def DateTime.lt (a b : DateTime) : Prop :=
  a.ord < b.ord ∨ (a.ord = b.ord ∧ a.usec < b.usec)

/-- `datetime.__le__`: lexicographic on (date, time-of-day). -/
def DateTime.le (a b : DateTime) : Prop :=
  a.ord < b.ord ∨ (a.ord = b.ord ∧ a.usec ≤ b.usec)

instance : DecidableRel DateTime.lt := fun a b => by
  unfold DateTime.lt; infer_instance

instance : DecidableRel DateTime.le := fun a b => by
  unfold DateTime.le; infer_instance

/-- `datetime.weekday()`: 0 = Monday.  Day 1 (0001-01-01) is a Monday. -/
def DateTime.weekday (a : DateTime) : Nat := (a.ord + 6) % 7

/-- `dt + timedelta(days = n)`: shifts the date, keeps the time of day. -/
def DateTime.addDays (a : DateTime) (n : Nat) : DateTime := ⟨a.ord + n, a.usec⟩

/-! ### `strptime(s, "%m/%d/%Y")` -/

/-- Grab exactly `k` ASCII digits from the front, returning their value and
the rest (the regex fragment `\d{k}`). -/
def grabDigits : Nat → List Char → Option (Nat × List Char)
  | 0, l => some (0, l)
  | _ + 1, [] => none
  | k + 1, c :: cs =>
    if isDigitC c then
      match grabDigits k cs with
      | some (v, r) => some ((c.toNat - 48) * 10 ^ k + v, r)
      | none => none
    else none

/-- One backtracking alternative of the strptime regex: `ml` digits of month,
a slash, `dl` digits of day, a slash, `yl` digits of year (always 4 for
`%Y`), end of input (strptime rejects unconverted trailing data). -/
def tryMDY (ml dl yl : Nat) (l : List Char) : Option (Nat × Nat × Nat) :=
  match grabDigits ml l with
  | some (m, '/' :: r1) =>
    match grabDigits dl r1 with
    | some (d, '/' :: r2) =>
      match grabDigits yl r2 with
      | some (y, []) => some (m, d, y)
      | _ => none
    | _ => none
  | _ => none

/-- The greedy backtracking order of the month/day alternatives (two digits
preferred over one), with the year fixed at four digits. -/
def combosMDY : List (Nat × Nat × Nat) :=
  ([2, 1].map fun a => ([2, 1].map fun b => [4].map fun c => (a, b, c))).flatten.flatten

/-- `datetime.strptime(s, "%m/%d/%Y")` with its `ValueError` as `none`:
match the pattern against the whole string, then validate the calendar date;
a successful parse is that date at midnight. -/
def strptime_mdY (l : List Char) : Option DateTime :=
  match combosMDY.findSome? (fun x => tryMDY x.1 x.2.1 x.2.2 l) with
  | some (m, d, y) => if validDate y m d then some ⟨toOrdinal y m d, 0⟩ else none
  | none => none

/-! ### `parse_due_date` -/

/-- The `weekdays` list in `parse_due_date`. -/
def weekdaysList : List (List Char) :=
  ["monday".toList, "tuesday".toList, "wednesday".toList, "thursday".toList,
   "friday".toList, "saturday".toList, "sunday".toList]

/-- `parse_due_date(due_string)` at a fixed value of `datetime.now()`.
Mirrors the source line by line: empty string → `None`; try strptime; then
strip/lower; `tomorrow` → now + 1 day; a weekday name → the next such
weekday, 7 days ahead when today already is it; otherwise `None`. -/
def parse_due_date (now : DateTime) (due_string : List Char) : Option DateTime :=
  if due_string = [] then none
  else
    match strptime_mdY due_string with
    | some dt => some dt
    | none =>
      let t := pylower (pystrip due_string)
      if t = "tomorrow".toList then some (now.addDays 1)
      else if t ∈ weekdaysList then
        let target_index := weekdaysList.indexOf t
        let delta_days :=
          if (target_index + 7 - now.weekday) % 7 = 0 then 7
          else (target_index + 7 - now.weekday) % 7
        some (now.addDays delta_days)
      else none

/-! ### The `Task` entity -/

/-- One task record, with the exact fields of class `Task`.  `id` is the
integer of `uuid.uuid4()`; `priority` is a Python `int` (the sort key negates
it, so we keep it as `Int`); names are Python strings, i.e. `List Char`. -/
structure Task where
  id : Nat
  name : List Char
  priority : Int
  created : DateTime
  due_date : Option DateTime
  completed : Option DateTime
deriving DecidableEq, Repr

/-- `Task.mark_completed`: sets `completed = datetime.now()`. -/
def Task.mark_completed (t : Task) (now : DateTime) : Task :=
  { t with completed := some now }

/-- `Task.is_done`: `completed is not None`. -/
def Task.is_done (t : Task) : Bool := t.completed.isSome

/-! ### The shared sort rule -/

/-- The sort key of `list`/`report`/`query`:
`(t.due_date or datetime.max, -t.priority)`.  `datetime` values are always
truthy, so `or` is exactly a `None` check. -/
def sortKey (t : Task) : DateTime × Int := (t.due_date.getD dtMax, -t.priority)

/-- The `≤` on sort keys: lexicographic pair order, as Python compares the
key tuples. -/
def keyLe (a b : Task) : Prop :=
  DateTime.lt (sortKey a).1 (sortKey b).1 ∨
    ((sortKey a).1 = (sortKey b).1 ∧ (sortKey a).2 ≤ (sortKey b).2)

instance : DecidableRel keyLe := fun a b => by
  unfold keyLe; infer_instance

/-- `active.sort(key=lambda t: (t.due_date or datetime.max, -t.priority))`:
Python's stable sort, modelled by `insertionSort` under `keyLe` (insertion
sort under a total `≤` is stable, hence produces the same list). -/
def sortTasks (ts : List Task) : List Task := List.insertionSort keyLe ts

/-- `≤` on creation timestamps, the key of the sort at load time. -/
def createdLe (a b : Task) : Prop := DateTime.le a.created b.created

instance : DecidableRel createdLe := fun a b => by
  unfold createdLe; infer_instance

/-! ### The `Tasks` store -/

/-- The store state: the in-memory list plus the persisted blob (`none` when
`~/.todo.pickle` does not exist).  Pickle round-trips objects exactly, so the
blob is the pickled list itself. -/
structure Store where
  tasks : List Task
  disk : Option (List Task)
deriving Repr

namespace Tasks

/-- `Tasks.__init__`: load the pickle if the file exists (else start empty)
and sort the list by creation time. -/
def init (disk : Option (List Task)) : Store :=
  ⟨List.insertionSort createdLe (disk.getD []), disk⟩

/-- `Tasks.pickle_tasks`: dump the whole in-memory list to the file. -/
def pickle_tasks (st : Store) : Store := { st with disk := some st.tasks }

/-- `Tasks.add`: parse the due string, construct the task (fresh uuid `uid`
and `created = now` are parameters of the model), append, persist. -/
def add (st : Store) (name : List Char) (due : Option (List Char))
    (priority : Int) (uid : Nat) (now : DateTime) : Store :=
  let due_date := match due with
    | some d => if d = [] then none else parse_due_date now d
    | none => none
  let task : Task := ⟨uid, name, priority, now, due_date, none⟩
  pickle_tasks { st with tasks := st.tasks ++ [task] }

/-- The selection `list()` renders: not-completed tasks, in the shared sort
order. -/
def list (st : Store) : List Task :=
  sortTasks (st.tasks.filter (fun t => ! t.is_done))

/-- The selection `report()` renders: all tasks, in the shared sort order. -/
def report (st : Store) : List Task := sortTasks st.tasks

/-- `next((t for t in tasks if t.id == task_id), None)` followed by the
in-place `mark_completed`: only the first task with the id is mutated. -/
def markFirst (tid : Int) (now : DateTime) : List Task → List Task
  | [] => []
  | t :: ts =>
    if (t.id : Int) = tid then t.mark_completed now :: ts
    else t :: markFirst tid now ts

/-- `Tasks.done` after the `int(task_id)` conversion: find the task, mark it,
persist, report; or report "Task not found." leaving everything unchanged. -/
def doneCore (st : Store) (tid : Int) (now : DateTime) : Store × String :=
  match st.tasks.find? (fun t => (t.id : Int) == tid) with
  | some t =>
    let tasks' := markFirst tid now st.tasks
    (pickle_tasks { st with tasks := tasks' }, s!"Completed task {t.id}")
  | none => (st, "Task not found.")

/-- `Tasks.delete` after the `int(task_id)` conversion: filter the id out;
persist and report success only when the list shrank. -/
def deleteCore (st : Store) (tid : Int) : Store × String :=
  let tasks' := st.tasks.filter (fun t => ! ((t.id : Int) == tid))
  if tasks'.length < st.tasks.length then
    (pickle_tasks { st with tasks := tasks' }, s!"Deleted task {tid}")
  else (st, "Task not found.")

/-- The selection `query(terms)` renders: not-completed tasks whose lowered
name contains some lowered term, in the shared sort order. -/
def query (st : Store) (terms : List (List Char)) : List Task :=
  sortTasks (st.tasks.filter
    (fun t => ! t.is_done && terms.any (fun term => decide (pylower term <:+: pylower t.name))))

end Tasks

/-! ### Python `int()` on strings -/

/-- After the first digit of an `int()` literal: digits with single
underscores strictly between digits. -/
def digitsURest : List Char → Bool
  | [] => true
  | '_' :: cs =>
    match cs with
    | c :: cs' => isDigitC c && digitsURest cs'
    | [] => false
  | c :: cs => isDigitC c && digitsURest cs

/-- A nonempty run of digits with legal underscores. -/
def digitsU : List Char → Bool
  | [] => false
  | c :: cs => isDigitC c && digitsURest cs

/-- Numeric value of the digit run, skipping underscores. -/
def digitsVal (l : List Char) : Nat :=
  (l.filter (fun c => c ≠ '_')).foldl (fun acc c => acc * 10 + (c.toNat - 48)) 0

/-- Python `int(s)`: strip whitespace, optional sign, base-10 digits with
underscore separators; `none` models the `ValueError` it raises otherwise. -/
def pyInt? (l : List Char) : Option Int :=
  match pystrip l with
  | '+' :: r => if digitsU r then some (digitsVal r : Int) else none
  | '-' :: r => if digitsU r then some (-(digitsVal r : Int)) else none
  | r => if digitsU r then some (digitsVal r : Int) else none

/-- `Tasks.done` on the raw command-line string: `int(task_id)` may raise,
in which case nothing happens to the store.  The `Except` is the outcome the
process observes: `error` is the uncaught exception, `ok` the printed line. -/
def Tasks.done (st : Store) (task_id : List Char) (now : DateTime) :
    Store × Except String String :=
  match pyInt? task_id with
  | none => (st, Except.error "ValueError: invalid literal for int() with base 10")
  | some tid =>
    let (st', msg) := Tasks.doneCore st tid now
    (st', Except.ok msg)

/-- `Tasks.delete` on the raw command-line string, as for `Tasks.done`. -/
def Tasks.delete (st : Store) (task_id : List Char) :
    Store × Except String String :=
  match pyInt? task_id with
  | none => (st, Except.error "ValueError: invalid literal for int() with base 10")
  | some tid =>
    let (st', msg) := Tasks.deleteCore st tid
    (st', Except.ok msg)

/-! ### Spec-side notions (for refinement statements) -/

/-- The due-date key of the spec's sort rule: the due date, with "no due
date" as the maximum possible value. -/
def dueKey (t : Task) : DateTime := t.due_date.getD dtMax

/-- The ordering the spec describes: primary key due date ascending (absent
due date last), secondary key priority descending. -/
def specLe (a b : Task) : Prop :=
  DateTime.lt (dueKey a) (dueKey b) ∨ (dueKey a = dueKey b ∧ b.priority ≤ a.priority)

/-- The decimal digit characters. -/
def digitChar : Nat → Char
  | 0 => '0' | 1 => '1' | 2 => '2' | 3 => '3' | 4 => '4'
  | 5 => '5' | 6 => '6' | 7 => '7' | 8 => '8' | _ => '9'

/-- Two-digit zero-padded decimal rendering (for `n < 100`). -/
def pad2 (n : Nat) : List Char := [digitChar (n / 10), digitChar (n % 10)]

/-- Four-digit zero-padded decimal rendering (for `n < 10000`). -/
def pad4 (n : Nat) : List Char :=
  [digitChar (n / 1000), digitChar (n / 100 % 10), digitChar (n / 10 % 10), digitChar (n % 10)]

/-- The input string `"MM/DD/YYYY"` for a month/day/year triple. -/
def fmtMDY (m d y : Nat) : List Char := pad2 m ++ '/' :: pad2 d ++ '/' :: pad4 y

/-- A concrete task, for evaluating the operations at specific inputs. -/
def demoTask : Task := ⟨1, ['a'], 1, ⟨700000, 0⟩, none, none⟩

/-- A second concrete task. -/
def demoTask2 : Task := ⟨2, ['b'], 2, ⟨700001, 0⟩, none, none⟩

/-- A concrete two-task store, for evaluating the operations. -/
def demoStore : Store := ⟨[demoTask, demoTask2], none⟩

/-! ## Order lemmas -/

theorem dateTime_eq_iff (a b : DateTime) : a = b ↔ a.ord = b.ord ∧ a.usec = b.usec := by
  cases a; cases b; simp

theorem keyLe_iff (a b : Task) :
    keyLe a b ↔
      ((dueKey a).ord < (dueKey b).ord ∨
        ((dueKey a).ord = (dueKey b).ord ∧
          ((dueKey a).usec < (dueKey b).usec ∨
            ((dueKey a).usec = (dueKey b).usec ∧ b.priority ≤ a.priority)))) := by
  simp only [keyLe, sortKey, DateTime.lt, dueKey, dateTime_eq_iff]
  omega

theorem specLe_iff (a b : Task) :
    specLe a b ↔
      ((dueKey a).ord < (dueKey b).ord ∨
        ((dueKey a).ord = (dueKey b).ord ∧
          ((dueKey a).usec < (dueKey b).usec ∨
            ((dueKey a).usec = (dueKey b).usec ∧ b.priority ≤ a.priority)))) := by
  simp only [specLe, DateTime.lt, dateTime_eq_iff]
  omega

theorem keyLe_iff_specLe (a b : Task) : keyLe a b ↔ specLe a b := by
  rw [keyLe_iff, specLe_iff]

instance : IsTotal Task keyLe :=
  ⟨fun a b => by simp only [keyLe_iff]; omega⟩

instance : IsTrans Task keyLe :=
  ⟨fun a b c => by simp only [keyLe_iff]; omega⟩

instance : IsTotal Task createdLe :=
  ⟨fun a b => by simp only [createdLe, DateTime.le]; omega⟩

instance : IsTrans Task createdLe :=
  ⟨fun a b c => by simp only [createdLe, DateTime.le]; omega⟩

/-! ## Stability of the shared sort -/

theorem filter_key_pairwise (ts : List Task) (dd : Option DateTime) (p : Int) :
    (ts.filter (fun t => decide (t.due_date = dd ∧ t.priority = p))).Pairwise keyLe := by
  apply List.pairwise_of_forall_mem_list
  intro a ha b hb
  rw [List.mem_filter] at ha hb
  have ha' := of_decide_eq_true ha.2
  have hb' := of_decide_eq_true hb.2
  have hdue : dueKey a = dueKey b := by simp [dueKey, ha'.1, hb'.1]
  rw [keyLe_iff]
  exact Or.inr ⟨congrArg DateTime.ord hdue,
    Or.inr ⟨congrArg DateTime.usec hdue, le_of_eq (hb'.2.trans ha'.2.symm)⟩⟩

theorem sortTasks_stable (ts : List Task) (dd : Option DateTime) (p : Int) :
    (sortTasks ts).filter (fun t => decide (t.due_date = dd ∧ t.priority = p)) =
      ts.filter (fun t => decide (t.due_date = dd ∧ t.priority = p)) := by
  set q : Task → Bool := fun t => decide (t.due_date = dd ∧ t.priority = p) with hq
  have hsub : (ts.filter q).Sublist (sortTasks ts) :=
    List.sublist_insertionSort (filter_key_pairwise ts dd p) (List.filter_sublist ts)
  have hsub' : ((ts.filter q).filter q).Sublist ((sortTasks ts).filter q) := hsub.filter q
  have hid : (ts.filter q).filter q = ts.filter q := by
    rw [List.filter_filter]
    simp
  rw [hid] at hsub'
  have hperm : ((sortTasks ts).filter q).Perm (ts.filter q) :=
    (List.perm_insertionSort keyLe ts).filter q
  exact (hsub'.eq_of_length hperm.length_eq.symm).symm

/-! ## Lemmas about done / delete -/

theorem markFirst_append (tid : Int) (now : DateTime) (l1 : List Task) (t : Task)
    (l2 : List Task) (h1 : ∀ u ∈ l1, (u.id : Int) ≠ tid) (ht : (t.id : Int) = tid) :
    Tasks.markFirst tid now (l1 ++ t :: l2) = l1 ++ t.mark_completed now :: l2 := by
  induction l1 with
  | nil => simp [Tasks.markFirst, ht]
  | cons u us ih =>
    have hu : (u.id : Int) ≠ tid := h1 u (by simp)
    simp only [List.cons_append, Tasks.markFirst, if_neg hu, List.append_eq]
    rw [ih (fun v hv => h1 v (by simp [hv]))]

/-- With unique ids, a task whose id matches splits the list so that no task
of either side matches. -/
theorem split_of_unique_id (ts : List Task) (tid : Int)
    (hu : (ts.map Task.id).Nodup) (t0 : Task) (hmem : t0 ∈ ts)
    (hid : (t0.id : Int) = tid) :
    ∃ l1 l2, ts = l1 ++ t0 :: l2 ∧ (∀ v ∈ l1, (v.id : Int) ≠ tid) ∧
      (∀ v ∈ l2, (v.id : Int) ≠ tid) := by
  obtain ⟨l1, l2, rfl⟩ := List.append_of_mem hmem
  refine ⟨l1, l2, rfl, ?_, ?_⟩ <;>
  · intro v hv hvid
    have hveq : v.id = t0.id := by
      have : (v.id : Int) = (t0.id : Int) := hvid.trans hid.symm
      exact_mod_cast this
    rw [List.map_append, List.map_cons] at hu
    rw [List.nodup_middle] at hu
    have hnotmem := (List.nodup_cons.mp hu).1
    rw [← List.map_append] at hnotmem
    exact hnotmem (hveq ▸ List.mem_map_of_mem Task.id (by simp [hv]))

/-- C1: the shared listing order used by `list`, `report`, and `query` (all
three are `sortTasks` of their selection) sorts primarily by due date
ascending with an absent due date as the maximum possible value, secondarily
by priority descending (`specLe`), and is stable: tasks with identical
`(due_date, priority)` keep the relative order they have in the underlying
collection, which is itself sorted by creation time at load. -/
theorem c1_shared_sort_order (ts : List Task) (st : Store) (terms : List (List Char))
    (dd : Option DateTime) (p : Int) (disk : Option (List Task)) :
    (sortTasks ts).Perm ts ∧
    (sortTasks ts).Sorted specLe ∧
    (sortTasks ts).filter (fun t => decide (t.due_date = dd ∧ t.priority = p)) =
      ts.filter (fun t => decide (t.due_date = dd ∧ t.priority = p)) ∧
    Tasks.list st = sortTasks (st.tasks.filter (fun t => ! t.is_done)) ∧
    Tasks.report st = sortTasks st.tasks ∧
    Tasks.query st terms =
      sortTasks (st.tasks.filter
        (fun t => ! t.is_done &&
          terms.any (fun term => decide (pylower term <:+: pylower t.name)))) ∧
    ((Tasks.init disk).tasks).Perm (disk.getD []) ∧
    ((Tasks.init disk).tasks).Sorted createdLe := by
  refine ⟨List.perm_insertionSort keyLe ts, ?_, sortTasks_stable ts dd p, rfl, rfl, rfl,
    List.perm_insertionSort createdLe _, List.sorted_insertionSort createdLe _⟩
  exact (List.sorted_insertionSort keyLe ts).imp (fun h => (keyLe_iff_specLe _ _).mp h)

/-- C6: the date parser is a total function into `Option` (no error channel),
and it yields "no due date" exactly on an empty string or text matching none
of the three recognized forms (MM/DD/YYYY, `tomorrow`, a weekday name). -/
theorem c6_parser_total_never_errors (now : DateTime) (s : List Char) :
    parse_due_date now s = none ↔
      (s = [] ∨
        (strptime_mdY s = none ∧ pylower (pystrip s) ≠ "tomorrow".toList ∧
          pylower (pystrip s) ∉ weekdaysList)) := by
  unfold parse_due_date
  by_cases h1 : s = []
  · simp [h1]
  · simp only [if_neg h1]
    cases hs : strptime_mdY s with
    | some dt => simp [h1, hs]
    | none =>
      by_cases h2 : pylower (pystrip s) = "tomorrow".toList
      · simp [h1, h2]
      · by_cases h3 : pylower (pystrip s) ∈ weekdaysList
        · simp only [hs, h2, h3, if_neg, if_pos, not_false_eq_true, ne_eq, not_true_eq_false,
            and_false, or_false, false_iff, not_and, not_not]
          simp [h1]
        · simp [h1, h2, h3]

/-- C4: `query(terms)` selects exactly the not-completed tasks whose name
contains at least one term as a case-insensitive substring (completed tasks
are excluded even when the name matches), and sorts the selection by the
same rule as `list` (the shared `specLe` order, as a permutation of the
filtered collection). -/
theorem c4_query_selection (st : Store) (terms : List (List Char)) :
    (∀ t, t ∈ Tasks.query st terms ↔
        (t ∈ st.tasks ∧ t.completed = none ∧
          ∃ term ∈ terms, (pylower term) <:+: (pylower t.name))) ∧
    (Tasks.query st terms).Sorted specLe ∧
    (Tasks.query st terms).Perm
      (st.tasks.filter (fun t => ! t.is_done &&
        terms.any (fun term => decide (pylower term <:+: pylower t.name)))) := by
  refine ⟨?_, ?_, List.perm_insertionSort keyLe _⟩
  · intro t
    unfold Tasks.query sortTasks
    rw [List.mem_insertionSort, List.mem_filter]
    simp [Task.is_done, List.any_eq_true, Option.isSome_iff_exists, and_assoc]
  · exact (List.sorted_insertionSort keyLe _).imp (fun h => (keyLe_iff_specLe _ _).mp h)

/-- C7: persisting the collection and reloading it reproduces the same
membership, with every task record (id, name, priority, due date, created and
completed timestamps — all at full, hence at least minute, precision)
preserved: the reloaded list is a permutation of the saved one, with the same
members and the same multiplicities. -/
theorem c7_pickle_roundtrip (st : Store) :
    ((Tasks.init (Tasks.pickle_tasks st).disk).tasks).Perm st.tasks ∧
    (∀ t, t ∈ (Tasks.init (Tasks.pickle_tasks st).disk).tasks ↔ t ∈ st.tasks) ∧
    (∀ t, ((Tasks.init (Tasks.pickle_tasks st).disk).tasks).count t = st.tasks.count t) := by
  have hperm : ((Tasks.init (Tasks.pickle_tasks st).disk).tasks).Perm st.tasks :=
    List.perm_insertionSort createdLe st.tasks
  exact ⟨hperm, fun t => hperm.mem_iff, fun t => hperm.count_eq t⟩

/-- C3: for an id present in the store (ids unique), `done` marks that task
completed: it disappears from the `list` selection (which shows only tasks
with `is_done()` false), appears in the `report` selection with completion
timestamp `now`, and the full collection is persisted. -/
theorem c3_done_marks_and_persists (st : Store) (tid : Int) (now : DateTime)
    (hu : (st.tasks.map Task.id).Nodup) (t0 : Task) (hmem : t0 ∈ st.tasks)
    (hid : (t0.id : Int) = tid) :
    (∀ u ∈ Tasks.list (Tasks.doneCore st tid now).1, (u.id : Int) ≠ tid) ∧
    (∃ u ∈ Tasks.report (Tasks.doneCore st tid now).1,
      (u.id : Int) = tid ∧ u.completed = some now) ∧
    (Tasks.doneCore st tid now).1.disk = some (Tasks.doneCore st tid now).1.tasks := by
  obtain ⟨l1, l2, hsplit, hl1, hl2⟩ := split_of_unique_id st.tasks tid hu t0 hmem hid
  have hfind : (st.tasks.find? (fun t => (t.id : Int) == tid)).isSome := by
    rw [List.find?_isSome]
    exact ⟨t0, hmem, by simp [hid]⟩
  obtain ⟨u0, hu0⟩ := Option.isSome_iff_exists.mp hfind
  have hcore : (Tasks.doneCore st tid now).1 =
      ⟨Tasks.markFirst tid now st.tasks, some (Tasks.markFirst tid now st.tasks)⟩ := by
    simp [Tasks.doneCore, hu0, Tasks.pickle_tasks]
  have hmark : Tasks.markFirst tid now st.tasks = l1 ++ t0.mark_completed now :: l2 := by
    rw [hsplit]; exact markFirst_append tid now l1 t0 l2 hl1 hid
  refine ⟨?_, ?_, by rw [hcore]⟩
  · intro u hu'
    unfold Tasks.list sortTasks at hu'
    rw [List.mem_insertionSort, List.mem_filter] at hu'
    obtain ⟨humem, hudone⟩ := hu'
    rw [hcore] at humem
    simp only at humem
    rw [hmark] at humem
    intro huid
    rcases List.mem_append.mp humem with h | h
    · exact hl1 u h huid
    · rcases List.mem_cons.mp h with h' | h'
      · subst h'
        simp [Task.is_done, Task.mark_completed] at hudone
      · exact hl2 u h' huid
  · refine ⟨t0.mark_completed now, ?_, by simp [Task.mark_completed, hid], rfl⟩
    unfold Tasks.report sortTasks
    rw [List.mem_insertionSort, hcore]
    simp only
    rw [hmark]
    exact List.mem_append.mpr (Or.inr (List.mem_cons_self _ _))

/-- C5: with unique ids, `delete` on a present id removes exactly that one
task, persists the reduced collection and reports success; on an absent id it
leaves the store (memory and disk) entirely unchanged and reports
"Task not found.". -/
theorem c5_delete_exact (st : Store) (tid : Int)
    (hu : (st.tasks.map Task.id).Nodup) :
    (∀ t0, t0 ∈ st.tasks → (t0.id : Int) = tid →
      ∃ l1 l2, st.tasks = l1 ++ t0 :: l2 ∧
        Tasks.deleteCore st tid = (⟨l1 ++ l2, some (l1 ++ l2)⟩, s!"Deleted task {tid}")) ∧
    ((∀ t ∈ st.tasks, (t.id : Int) ≠ tid) →
      Tasks.deleteCore st tid = (st, "Task not found.")) := by
  constructor
  · intro t0 hmem hid
    obtain ⟨l1, l2, hsplit, hl1, hl2⟩ := split_of_unique_id st.tasks tid hu t0 hmem hid
    refine ⟨l1, l2, hsplit, ?_⟩
    have hfilter : st.tasks.filter (fun t => ! ((t.id : Int) == tid)) = l1 ++ l2 := by
      rw [hsplit, List.filter_append, List.filter_cons]
      rw [List.filter_eq_self.mpr (fun a ha => by simp [hl1 a ha]),
        List.filter_eq_self.mpr (fun a ha => by simp [hl2 a ha])]
      simp [hid]
    have hlen : (l1 ++ l2).length < st.tasks.length := by
      rw [hsplit]; simp
    unfold Tasks.deleteCore
    rw [hfilter]
    rw [if_pos hlen]
    rfl
  · intro habs
    have hfilter : st.tasks.filter (fun t => ! ((t.id : Int) == tid)) = st.tasks :=
      List.filter_eq_self.mpr (fun a ha => by simp [habs a ha])
    unfold Tasks.deleteCore
    rw [hfilter, if_neg (lt_irrefl _)]

/-- C9: for an id string that `int()` rejects, `done` and `delete` propagate
the exception (never the "Task not found." report) and neither the in-memory
collection nor the persisted one changes; the reported outcomes only arise
for well-formed integer id strings, where both commands behave as their
core logic on the converted id. -/
theorem c9_int_conversion_gate (st : Store) (s : List Char) (now : DateTime) :
    (pyInt? s = none →
      Tasks.done st s now =
        (st, Except.error "ValueError: invalid literal for int() with base 10") ∧
      Tasks.delete st s =
        (st, Except.error "ValueError: invalid literal for int() with base 10")) ∧
    (∀ n, pyInt? s = some n →
      Tasks.done st s now = ((Tasks.doneCore st n now).1, Except.ok (Tasks.doneCore st n now).2) ∧
      Tasks.delete st s = ((Tasks.deleteCore st n).1, Except.ok (Tasks.deleteCore st n).2)) := by
  constructor
  · intro h
    constructor
    · unfold Tasks.done; rw [h]
    · unfold Tasks.delete; rw [h]
  · intro n h
    constructor
    · unfold Tasks.done; rw [h]
    · unfold Tasks.delete; rw [h]

/-! ## Lemmas about the date parser -/

theorem digitChar_spec (k : Nat) (h : k < 10) :
    isDigitC (digitChar k) = true ∧ (digitChar k).toNat = 48 + k := by
  interval_cases k <;> exact ⟨by decide, by decide⟩

theorem grabDigits_two (n : Nat) (h : n < 100) (rest : List Char) :
    grabDigits 2 (pad2 n ++ rest) = some (n, rest) := by
  have h1 := digitChar_spec (n / 10) (by omega)
  have h2 := digitChar_spec (n % 10) (by omega)
  simp only [pad2, List.cons_append, List.nil_append]
  simp only [grabDigits, h1.1, h2.1, if_pos, h1.2, h2.2]
  simp only [Option.some.injEq, Prod.mk.injEq, and_true]
  omega

theorem grabDigits_four (n : Nat) (h : n < 10000) (rest : List Char) :
    grabDigits 4 (pad4 n ++ rest) = some (n, rest) := by
  have h1 := digitChar_spec (n / 1000) (by omega)
  have h2 := digitChar_spec (n / 100 % 10) (by omega)
  have h3 := digitChar_spec (n / 10 % 10) (by omega)
  have h4 := digitChar_spec (n % 10) (by omega)
  simp only [pad4, List.cons_append, List.nil_append]
  simp only [grabDigits, h1.1, h2.1, h3.1, h4.1, if_pos, h1.2, h2.2, h3.2, h4.2]
  simp only [Option.some.injEq, Prod.mk.injEq, and_true]
  omega

theorem tryMDY_fmt (m d y : Nat) (hm : m < 100) (hd : d < 100) (hy : y < 10000) :
    tryMDY 2 2 4 (fmtMDY m d y) = some (m, d, y) := by
  have gd4 : grabDigits 4 (pad4 y) = some (y, []) := by
    simpa using grabDigits_four y hy []
  unfold tryMDY fmtMDY
  simp only [List.cons_append, List.append_assoc, List.nil_append]
  simp only [grabDigits_two m hm, grabDigits_two d hd, gd4]

theorem combos_eq : combosMDY = [(2,2,4),(2,1,4),(1,2,4),(1,1,4)] := rfl

theorem daysInMonth_le (y m : Nat) : daysInMonth y m ≤ 31 := by
  unfold daysInMonth
  split
  · split <;> omega
  · split <;> omega

theorem strptime_fmt (m d y : Nat) (h : validDate y m d = true) :
    strptime_mdY (fmtMDY m d y) = some ⟨toOrdinal y m d, 0⟩ := by
  have hb := h
  simp only [validDate, Bool.and_eq_true, decide_eq_true_eq] at hb
  obtain ⟨⟨⟨⟨⟨hy1, hy2⟩, hm1⟩, hm2⟩, hd1⟩, hd2⟩ := hb
  have hdm := daysInMonth_le y m
  unfold strptime_mdY
  rw [combos_eq, List.findSome?_cons]
  rw [tryMDY_fmt m d y (by omega) (by omega) (by omega)]
  simp only
  rw [if_pos h]

theorem parse_fmt (now : DateTime) (m d y : Nat) (h : validDate y m d = true) :
    parse_due_date now (fmtMDY m d y) = some ⟨toOrdinal y m d, 0⟩ := by
  unfold parse_due_date
  rw [if_neg (by simp [fmtMDY, pad2]), strptime_fmt m d y h]

theorem grabDigits_none (n : Nat) (hn : n ≠ 0) (c : Char) (cs : List Char)
    (hc : isDigitC c = false) : grabDigits n (c :: cs) = none := by
  cases n with
  | zero => exact absurd rfl hn
  | succ k => simp [grabDigits, hc]

theorem strptime_head_not_digit (c : Char) (cs : List Char) (hc : isDigitC c = false) :
    strptime_mdY (c :: cs) = none := by
  have htry : ∀ a b y', a ≠ 0 → tryMDY a b y' (c :: cs) = none := by
    intro a b y' ha
    unfold tryMDY
    rw [grabDigits_none a ha c cs hc]
  unfold strptime_mdY
  rw [combos_eq]
  simp [List.findSome?_cons, htry]

theorem isDigitC_false_of_space (c : Char) (h : isSpaceC c = true) :
    isDigitC c = false := by
  simp only [isSpaceC, Bool.or_eq_true, beq_iff_eq] at h
  simp only [isDigitC, Bool.and_eq_false_iff, decide_eq_false_iff_not]
  omega

theorem isDigitC_false_of_lower (c w : Char) (hw : 97 ≤ w.toNat ∧ w.toNat ≤ 122)
    (h : lowerC c = w) : isDigitC c = false := by
  unfold lowerC at h
  by_cases hg : (65 ≤ c.toNat && c.toNat ≤ 90) = true
  · simp only [Bool.and_eq_true, decide_eq_true_eq] at hg
    simp only [isDigitC, Bool.and_eq_false_iff, decide_eq_false_iff_not]
    omega
  · rw [if_neg hg] at h
    subst h
    simp only [isDigitC, Bool.and_eq_false_iff, decide_eq_false_iff_not]
    omega

theorem dropWhile_append_last (p : Char → Bool) (c : Char) (hc : p c = false) :
    ∀ xs : List Char, ∃ ys, List.dropWhile p (xs ++ [c]) = ys ++ [c] := by
  intro xs
  induction xs with
  | nil => exact ⟨[], by simp [List.dropWhile, hc]⟩
  | cons x xs ih =>
    by_cases hx : p x
    · obtain ⟨ys, hys⟩ := ih
      exact ⟨ys, by simp [List.dropWhile_cons, hx, hys]⟩
    · exact ⟨x :: xs, by simp [List.dropWhile_cons, hx]⟩

theorem pystrip_cons_not_space (c : Char) (cs : List Char) (hc : isSpaceC c = false) :
    ∃ ys, pystrip (c :: cs) = c :: ys := by
  unfold pystrip
  rw [List.dropWhile_cons, if_neg (by simp [hc])]
  rw [List.reverse_cons]
  obtain ⟨ys, hys⟩ := dropWhile_append_last isSpaceC c hc cs.reverse
  rw [hys, List.reverse_append]
  exact ⟨ys.reverse, by simp⟩

theorem weekday_headI : ∀ l ∈ weekdaysList, 97 ≤ (l.headI).toNat ∧ (l.headI).toNat ≤ 122 := by
  decide

theorem weekday_head_not_digit (c : Char) (cs : List Char)
    (h : pylower (pystrip (c :: cs)) ∈ weekdaysList) : isDigitC c = false := by
  by_cases hsp : isSpaceC c
  · exact isDigitC_false_of_space c hsp
  · have hsp' : isSpaceC c = false := by revert hsp; cases isSpaceC c <;> simp
    obtain ⟨ys, hys⟩ := pystrip_cons_not_space c cs hsp'
    rw [hys] at h
    have hb := weekday_headI _ h
    simp only [pylower, List.map_cons, List.headI] at hb
    exact isDigitC_false_of_lower c (lowerC c) hb rfl

theorem parse_tomorrow (now : DateTime) :
    parse_due_date now "tomorrow".toList = some (now.addDays 1) := rfl

theorem parse_weekday (now : DateTime) (s : List Char)
    (h : pylower (pystrip s) ∈ weekdaysList) :
    ∃ δ, 1 ≤ δ ∧ δ ≤ 7 ∧
      parse_due_date now s = some (now.addDays δ) ∧
      (now.addDays δ).ord ≠ now.ord ∧
      (now.addDays δ).weekday = List.indexOf (pylower (pystrip s)) weekdaysList ∧
      (now.weekday = List.indexOf (pylower (pystrip s)) weekdaysList → δ = 7) := by
  have hne : s ≠ [] := by rintro rfl; revert h; decide
  obtain ⟨c, cs, rfl⟩ : ∃ c cs, s = c :: cs := by
    cases s with
    | nil => exact absurd rfl hne
    | cons c cs => exact ⟨c, cs, rfl⟩
  have hdig := weekday_head_not_digit c cs h
  have hstrp := strptime_head_not_digit c cs hdig
  have htom : pylower (pystrip (c :: cs)) ≠ "tomorrow".toList := by
    intro he
    rw [he] at h
    revert h; decide
  have hti7 : List.indexOf (pylower (pystrip (c :: cs))) weekdaysList < 7 := by
    have h' := h
    simp only [weekdaysList, List.mem_cons, List.not_mem_nil, or_false] at h'
    rcases h' with h' | h' | h' | h' | h' | h' | h' <;> rw [h'] <;> decide
  set ti := List.indexOf (pylower (pystrip (c :: cs))) weekdaysList with hti
  set δ := if (ti + 7 - now.weekday) % 7 = 0 then 7 else (ti + 7 - now.weekday) % 7 with hδ
  have hwd : now.weekday = (now.ord + 6) % 7 := rfl
  have hwd7 : now.weekday < 7 := by rw [hwd]; exact Nat.mod_lt _ (by norm_num)
  have h1 : 1 ≤ δ := by rw [hδ]; split <;> omega
  have h7 : δ ≤ 7 := by rw [hδ]; split <;> omega
  have hmod : (now.weekday + δ) % 7 = ti % 7 := by
    rw [hδ]; split <;> omega
  have heq : parse_due_date now (c :: cs) = some (now.addDays δ) := by
    unfold parse_due_date
    rw [if_neg hne, hstrp]
    simp only [if_neg htom, if_pos h, ← hti, ← hδ]
  refine ⟨δ, h1, h7, heq, ?_, ?_, ?_⟩
  · simp only [DateTime.addDays]
    omega
  · show ((⟨now.ord + δ, now.usec⟩ : DateTime).ord + 6) % 7 = ti
    rw [hwd] at hmod
    simp only
    omega
  · intro hsame
    rw [hδ]
    rw [hsame]
    split <;> omega

/-- C2: for every weekday-name input (full name, case-insensitive after
trimming whitespace) and every value of "now", the parsed date is never
today: it is between 1 and 7 days after today, its weekday matches the
given name, and when today already is that weekday it is exactly 7 days
later. -/
theorem c2_weekday_strictly_future (now : DateTime) (s : List Char)
    (h : pylower (pystrip s) ∈ weekdaysList) :
    ∃ δ, 1 ≤ δ ∧ δ ≤ 7 ∧
      parse_due_date now s = some (now.addDays δ) ∧
      (now.addDays δ).ord ≠ now.ord ∧
      (now.addDays δ).weekday = List.indexOf (pylower (pystrip s)) weekdaysList ∧
      (now.weekday = List.indexOf (pylower (pystrip s)) weekdaysList → δ = 7) :=
  parse_weekday now s h

/-- Witness for C2 at a concrete input: "now" is 2025-07-14 (a Monday,
ordinal 739446) and the input is `" Friday "` (case and surrounding
whitespace exercised). -/
theorem c2_weekday_strictly_future_witness :
    pylower (pystrip " Friday ".toList) ∈ weekdaysList ∧
    (∃ δ, 1 ≤ δ ∧ δ ≤ 7 ∧
      parse_due_date ⟨739446, 0⟩ " Friday ".toList = some (DateTime.addDays ⟨739446, 0⟩ δ) ∧
      (DateTime.addDays ⟨739446, 0⟩ δ).ord ≠ (739446 : Nat) ∧
      (DateTime.addDays ⟨739446, 0⟩ δ).weekday =
        List.indexOf (pylower (pystrip " Friday ".toList)) weekdaysList ∧
      ((DateTime.weekday ⟨739446, 0⟩) =
        List.indexOf (pylower (pystrip " Friday ".toList)) weekdaysList → δ = 7)) :=
  ⟨by decide, c2_weekday_strictly_future ⟨739446, 0⟩ " Friday ".toList (by decide)⟩

/-- C8: for every valid (month, day, year) triple, parsing the zero-padded
string `"MM/DD/YYYY"` (the first form the parser tries) yields exactly that
calendar date, at midnight. -/
theorem c8_mdy_exact_date (now : DateTime) (m d y : Nat) (h : validDate y m d = true) :
    parse_due_date now (fmtMDY m d y) = some ⟨toOrdinal y m d, 0⟩ :=
  parse_fmt now m d y h

/-- Witness for C8 at 12/31/2025 (ordinal 739616). -/
theorem c8_mdy_exact_date_witness :
    validDate 2025 12 31 = true ∧
    parse_due_date ⟨1, 0⟩ (fmtMDY 12 31 2025) = some ⟨toOrdinal 2025 12 31, 0⟩ ∧
    toOrdinal 2025 12 31 = 739616 :=
  ⟨by decide, c8_mdy_exact_date ⟨1, 0⟩ 12 31 2025 (by decide), by decide⟩

/-- C10: the parsed due date's time-of-day component depends on the input
form: MM/DD/YYYY inputs give midnight, while `tomorrow` and weekday names
carry the current time of day; consequently two tasks due the same calendar
day via different forms need not have equal due-date sort keys. -/
theorem c10_time_of_day_component (now : DateTime) (m d y : Nat) (s : List Char) :
    (validDate y m d = true →
      parse_due_date now (fmtMDY m d y) = some ⟨toOrdinal y m d, 0⟩) ∧
    parse_due_date now "tomorrow".toList = some ⟨now.ord + 1, now.usec⟩ ∧
    (pylower (pystrip s) ∈ weekdaysList →
      ∃ δ, parse_due_date now s = some ⟨now.ord + δ, now.usec⟩) ∧
    (∃ d1 d2 : DateTime,
      parse_due_date ⟨739446, 3600000000⟩ "tomorrow".toList = some d1 ∧
      parse_due_date ⟨739446, 3600000000⟩ "07/15/2025".toList = some d2 ∧
      d1.ord = d2.ord ∧ d1 ≠ d2 ∧
      sortKey ⟨1, [], 1, ⟨1, 0⟩, some d1, none⟩ ≠ sortKey ⟨2, [], 1, ⟨1, 0⟩, some d2, none⟩) := by
  refine ⟨fun h => parse_fmt now m d y h, parse_tomorrow now, ?_, ?_⟩
  · intro h
    obtain ⟨δ, -, -, heq, -, -, -⟩ := parse_weekday now s h
    exact ⟨δ, heq⟩
  · exact ⟨⟨739447, 3600000000⟩, ⟨739447, 0⟩, by decide, by decide, by decide, by decide,
      by decide⟩

/-- Witness for C10: "now" 2025-07-14 with a nonzero time of day. -/
theorem c10_time_of_day_component_witness :
    (parse_due_date ⟨739446, 5⟩ (fmtMDY 7 15 2025) = some ⟨toOrdinal 2025 7 15, 0⟩) ∧
    (parse_due_date ⟨739446, 5⟩ "tomorrow".toList = some ⟨739447, 5⟩) ∧
    (∃ δ, parse_due_date ⟨739446, 5⟩ "friday".toList = some ⟨739446 + δ, 5⟩) :=
  ⟨(c10_time_of_day_component ⟨739446, 5⟩ 7 15 2025 "friday".toList).1 (by decide),
   (c10_time_of_day_component ⟨739446, 5⟩ 7 15 2025 "friday".toList).2.1,
   (c10_time_of_day_component ⟨739446, 5⟩ 7 15 2025 "friday".toList).2.2.1 (by decide)⟩

/-- Witness for C3: completing task id 1 in the concrete two-task store. -/
theorem c3_done_marks_and_persists_witness :
    (demoStore.tasks.map Task.id).Nodup ∧ demoTask ∈ demoStore.tasks ∧
    ((demoTask.id : Int) = (1 : Int)) ∧
    ((∀ u ∈ Tasks.list (Tasks.doneCore demoStore 1 ⟨700002, 0⟩).1, (u.id : Int) ≠ (1 : Int)) ∧
      (∃ u ∈ Tasks.report (Tasks.doneCore demoStore 1 ⟨700002, 0⟩).1,
        (u.id : Int) = (1 : Int) ∧ u.completed = some ⟨700002, 0⟩) ∧
      (Tasks.doneCore demoStore 1 ⟨700002, 0⟩).1.disk =
        some (Tasks.doneCore demoStore 1 ⟨700002, 0⟩).1.tasks) :=
  ⟨by decide, by decide, by decide,
    c3_done_marks_and_persists demoStore 1 ⟨700002, 0⟩ (by decide) demoTask (by decide) (by decide)⟩

/-- Witness for C5: deleting the present id 1 from the concrete store. -/
theorem c5_delete_exact_witness :
    (demoStore.tasks.map Task.id).Nodup ∧ demoTask ∈ demoStore.tasks ∧
    ((demoTask.id : Int) = (1 : Int)) ∧
    (∃ l1 l2, demoStore.tasks = l1 ++ demoTask :: l2 ∧
      Tasks.deleteCore demoStore 1 = (⟨l1 ++ l2, some (l1 ++ l2)⟩, s!"Deleted task {(1 : Int)}")) :=
  ⟨by decide, by decide, by decide,
    (c5_delete_exact demoStore 1 (by decide)).1 demoTask (by decide) (by decide)⟩

/-- Witness for C9: the non-integer id string `"abc"` raises, the
well-formed id string `"1"` reaches the core logic. -/
theorem c9_int_conversion_gate_witness :
    pyInt? "abc".toList = none ∧
    (Tasks.done demoStore "abc".toList ⟨700002, 0⟩ =
        (demoStore, Except.error "ValueError: invalid literal for int() with base 10") ∧
      Tasks.delete demoStore "abc".toList =
        (demoStore, Except.error "ValueError: invalid literal for int() with base 10")) ∧
    pyInt? "1".toList = some 1 ∧
    (Tasks.done demoStore "1".toList ⟨700002, 0⟩ =
        ((Tasks.doneCore demoStore 1 ⟨700002, 0⟩).1,
          Except.ok (Tasks.doneCore demoStore 1 ⟨700002, 0⟩).2) ∧
      Tasks.delete demoStore "1".toList =
        ((Tasks.deleteCore demoStore 1).1, Except.ok (Tasks.deleteCore demoStore 1).2)) :=
  ⟨by decide, (c9_int_conversion_gate demoStore "abc".toList ⟨700002, 0⟩).1 (by decide),
    by decide, (c9_int_conversion_gate demoStore "1".toList ⟨700002, 0⟩).2 1 (by decide)⟩

end Todo
